import Mathlib

/-!
Verification of the movement logic of a small joystick-controlled sprite demo.
The program's per-frame update (`move_player`) and the startup state (`setup`)
are embedded over the real numbers: `f32` arithmetic is modelled by `ℝ`,
`Vec2`/`Vec3` by real-vector structures, the z-rotation quaternion by its
angle, and glam's `angle_between` by the complex argument (atan2).
-/

open Real

/-- A 2D vector of real numbers, modelling glam `Vec2` as used by the source. -/
@[ext]
structure Vec2 where
  x : ℝ
  y : ℝ

/-- A 3D vector of real numbers, modelling glam `Vec3` (the `translation` of a `Transform`). -/
@[ext]
structure Vec3 where
  x : ℝ
  y : ℝ
  z : ℝ

namespace Vec2

/-- Vec2::ZERO. -/
def zero : Vec2 := ⟨0, 0⟩

/-- Vec2::X, the reference direction (1, 0). -/
def X : Vec2 := ⟨1, 0⟩

/-- Componentwise scaling `v * c` (glam scalar multiplication). -/
def smul (v : Vec2) (c : ℝ) : Vec2 := ⟨v.x * c, v.y * c⟩

/-- Vec2::length: the square root of the sum of squared components. -/
noncomputable def length (v : Vec2) : ℝ := Real.sqrt (v.x ^ 2 + v.y ^ 2)

/-- Vec2::normalize: divide both components by the length. -/
noncomputable def normalize (v : Vec2) : Vec2 := ⟨v.x / v.length, v.y / v.length⟩

/-- Vec2::extend(z): embed into 3D with the given z component. -/
def extend (v : Vec2) (z : ℝ) : Vec3 := ⟨v.x, v.y, z⟩

/-- Vec2::angle_between(a, b): the signed counter-clockwise angle from `a` to `b`,
atan2 of the perpendicular dot product and the dot product, realised as the
argument of the complex number `dot + perp_dot * i` (range `(-pi, pi]`). -/
noncomputable def angle_between (a b : Vec2) : ℝ :=
  Complex.arg ⟨a.x * b.x + a.y * b.y, a.x * b.y - a.y * b.x⟩

end Vec2

/-- Componentwise addition of 3D vectors (the `+=` on `Transform.translation`). -/
def Vec3.add (a b : Vec3) : Vec3 := ⟨a.x + b.x, a.y + b.y, a.z + b.z⟩

/-- The player transform: a 3D translation together with the angle of the
z-rotation quaternion (`Quat::from_rotation_z`). -/
@[ext]
structure Transform where
  translation : Vec3
  rotation : ℝ

/-- The `Player` component of the source: only a `max_speed` field. -/
structure Player where
  max_speed : ℝ

/-- One frame's input as seen by `move_player`: the clamped `Move` axis pair
and whether the `Move` action is pressed. -/
structure InputReading where
  axis : Vec2
  pressed : Bool

open Classical in
/-- Embedding of `move_player` from src/main.rs: when the `Move` action is
pressed, scale the axis by `max_speed * dt`, divide by the length when the
length is positive, rescale by `max_speed * dt`, add the result (extended by a
zero z component) to the translation, and, when the axis is non-zero, set the
rotation to the angle between `Vec2::X` and the normalized axis. -/
noncomputable def move_player (player : Player) (player_transform : Transform)
    (pressed : Bool) (axis_value : Vec2) (dt : ℝ) : Transform :=
  if pressed then
    let move_delta0 : Vec2 := axis_value.smul (player.max_speed * dt)
    let length : ℝ := Real.sqrt (move_delta0.x ^ 2 + move_delta0.y ^ 2)
    let move_delta1 : Vec2 :=
      if length > 0 then ⟨move_delta0.x / length, move_delta0.y / length⟩ else move_delta0
    let move_delta : Vec2 := move_delta1.smul (player.max_speed * dt)
    let new_translation : Vec3 := player_transform.translation.add (move_delta.extend 0)
    if axis_value ≠ Vec2.zero then
      ⟨new_translation, Vec2.angle_between Vec2.X axis_value.normalize⟩
    else
      ⟨new_translation, player_transform.rotation⟩
  else player_transform

/-- The `Player` component spawned by `setup`. -/
def setup_player : Player := ⟨150⟩

/-- The transform of the player entity spawned by `setup`: translation
`Vec3::new(0., 0., 0.)` and the default (identity) rotation. -/
def setup_player_transform : Transform := ⟨⟨0, 0, 0⟩, 0⟩

/-- The entities carrying a `Player` component spawned at startup: `setup`
spawns a camera, one player and the touch-stick UI, and only the player
spawn carries a `Player` component. -/
def setup_players : List (Player × Transform) := [(setup_player, setup_player_transform)]

/-- One frame of the `move_player` system applied to an input reading and a
delta time. -/
noncomputable def step (p : Player) (tf : Transform) (i : InputReading) (dt : ℝ) : Transform :=
  move_player p tf i.pressed i.axis dt

/-- A whole session: fold `move_player` over a list of frames, each frame an
input reading paired with its delta time. -/
noncomputable def run_moves (p : Player) (tf : Transform)
    (frames : List (InputReading × ℝ)) : Transform :=
  frames.foldl (fun t f => step p t f.1 f.2) tf

/-- The full system state touched by the `move_player` query: the (read-only)
`Player` component and the (mutable) `Transform`. -/
noncomputable def move_player_system (p : Player) (tf : Transform)
    (pressed : Bool) (axis_value : Vec2) (dt : ℝ) : Player × Transform :=
  (p, move_player p tf pressed axis_value dt)

/-- A concrete transform used to instantiate universally quantified theorems. -/
def tf0 : Transform := ⟨⟨0, 0, 0⟩, 0⟩

/-- C2: with `active = false` (the `Move` action not pressed), `move_player`
leaves the whole player transform — position and rotation — unchanged. -/
theorem move_player_inactive_noop (p : Player) (tf : Transform) (axis : Vec2) (dt : ℝ) :
    move_player p tf false axis dt = tf := rfl

/-- C3: with `active = true` and the zero axis, `move_player` leaves both the
position and the rotation unchanged: the length-zero guard skips the division
and the zero-axis guard skips the rotation write. -/
theorem move_player_zero_axis_noop (p : Player) (tf : Transform) (dt : ℝ) :
    move_player p tf true ⟨0, 0⟩ dt = tf := by
  obtain ⟨⟨x, y, z⟩, r⟩ := tf
  simp [move_player, Vec2.smul, Vec2.zero, Vec2.extend, Vec3.add]

/-- C6: with `active = true` and `dt = 0`, the displacement is zero for every
axis: the position is unchanged (the division-by-zero guard is not entered). -/
theorem move_player_dt_zero_position (p : Player) (tf : Transform) (axis : Vec2) :
    (move_player p tf true axis 0).translation = tf.translation := by
  obtain ⟨⟨x, y, z⟩, r⟩ := tf
  simp [move_player, Vec2.smul, Vec2.extend, Vec3.add, apply_ite Transform.translation]

/-- C7: startup spawns exactly one player entity, with position `(0, 0)` (as a
3D translation `(0, 0, 0)`), rotation `0` and `max_speed = 150`. -/
theorem setup_single_player :
    setup_players.length = 1 ∧ setup_player.max_speed = 150 ∧
      setup_player_transform.translation = ⟨0, 0, 0⟩ ∧ setup_player_transform.rotation = 0 :=
  ⟨rfl, rfl, rfl, rfl⟩

/-- C9: every call of the `move_player` system, pressed or not, preserves the
z component of the translation (the displacement is extended with `z = 0`) and
the `max_speed` field (the `Player` component is only read). -/
theorem move_player_preserves_z_and_max_speed (p : Player) (tf : Transform)
    (pressed : Bool) (axis : Vec2) (dt : ℝ) :
    (move_player_system p tf pressed axis dt).1.max_speed = p.max_speed ∧
      (move_player_system p tf pressed axis dt).2.translation.z = tf.translation.z := by
  refine ⟨rfl, ?_⟩
  obtain ⟨⟨x, y, z⟩, r⟩ := tf
  cases pressed with
  | false => rfl
  | true =>
      simp [move_player_system, move_player, Vec2.smul, Vec2.extend, Vec3.add,
        apply_ite Transform.translation]

/-- C10: `move_player` is deterministic: equal player components, transforms,
pressed flags, axis readings and delta times produce equal resulting
transforms. -/
theorem move_player_deterministic (p1 p2 : Player) (tf1 tf2 : Transform)
    (pr1 pr2 : Bool) (ax1 ax2 : Vec2) (dt1 dt2 : ℝ)
    (hp : p1 = p2) (htf : tf1 = tf2) (hpr : pr1 = pr2) (hax : ax1 = ax2) (hdt : dt1 = dt2) :
    move_player p1 tf1 pr1 ax1 dt1 = move_player p2 tf2 pr2 ax2 dt2 := by
  subst hp htf hpr hax hdt
  rfl

/-- Witness for C10 at a concrete input. -/
theorem move_player_deterministic_witness :
    move_player ⟨150⟩ tf0 true ⟨1, 0⟩ 1 = move_player ⟨150⟩ tf0 true ⟨1, 0⟩ 1 :=
  move_player_deterministic ⟨150⟩ ⟨150⟩ tf0 tf0 true true ⟨1, 0⟩ ⟨1, 0⟩ 1 1
    rfl rfl rfl rfl rfl

/-- Scaling both components by `c` scales the Euclidean length by `abs c`. -/
lemma sqrt_smul_sq (a b c : ℝ) :
    Real.sqrt ((a * c) ^ 2 + (b * c) ^ 2) = |c| * Real.sqrt (a ^ 2 + b ^ 2) := by
  rw [show (a * c) ^ 2 + (b * c) ^ 2 = c ^ 2 * (a ^ 2 + b ^ 2) by ring,
    Real.sqrt_mul (sq_nonneg c), Real.sqrt_sq_eq_abs]

/-- A non-zero `Vec2` has a positive sum of squared components. -/
lemma Vec2.sq_add_sq_pos (v : Vec2) (h : v ≠ Vec2.zero) : 0 < v.x ^ 2 + v.y ^ 2 := by
  have hxy : v.x ≠ 0 ∨ v.y ≠ 0 := by
    by_contra hc
    push_neg at hc
    exact h (Vec2.ext hc.1 hc.2)
  rcases hxy with hx | hy
  · exact add_pos_of_pos_of_nonneg (pow_two_pos_of_ne_zero hx) (sq_nonneg _)
  · exact add_pos_of_nonneg_of_pos (sq_nonneg _) (pow_two_pos_of_ne_zero hy)

/-- Normalizing a component of the scaled vector and rescaling by `c` gives the
component of the normalized raw vector scaled by `abs c`. -/
lemma normalize_rescale (a b c : ℝ) (hab : 0 < a ^ 2 + b ^ 2) (hc : c ≠ 0) :
    a * c / Real.sqrt ((a * c) ^ 2 + (b * c) ^ 2) * c
      = a / Real.sqrt (a ^ 2 + b ^ 2) * |c| := by
  rw [sqrt_smul_sq]
  have hL0 : 0 < Real.sqrt (a ^ 2 + b ^ 2) := Real.sqrt_pos.mpr hab
  have hA : 0 < |c| := abs_pos.mpr hc
  have hcc : c * c = |c| * |c| := (abs_mul_abs_self c).symm
  field_simp
  linear_combination a * Real.sqrt (a ^ 2 + b ^ 2) * hcc

/-- The Euclidean length of the normalized components of a non-zero vector is one. -/
lemma sqrt_normalized (a b : ℝ) (hab : 0 < a ^ 2 + b ^ 2) :
    Real.sqrt ((a / Real.sqrt (a ^ 2 + b ^ 2)) ^ 2 + (b / Real.sqrt (a ^ 2 + b ^ 2)) ^ 2)
      = 1 := by
  have hL0 : 0 < Real.sqrt (a ^ 2 + b ^ 2) := Real.sqrt_pos.mpr hab
  have h1 : (a / Real.sqrt (a ^ 2 + b ^ 2)) ^ 2 + (b / Real.sqrt (a ^ 2 + b ^ 2)) ^ 2 = 1 := by
    rw [div_pow, div_pow, Real.sq_sqrt hab.le]
    field_simp
  rw [h1, Real.sqrt_one]

/-- Variant of `normalize_rescale` for the second component. -/
lemma normalize_rescale_y (a b c : ℝ) (hab : 0 < a ^ 2 + b ^ 2) (hc : c ≠ 0) :
    b * c / Real.sqrt ((a * c) ^ 2 + (b * c) ^ 2) * c
      = b / Real.sqrt (a ^ 2 + b ^ 2) * |c| := by
  rw [add_comm ((a * c) ^ 2) ((b * c) ^ 2), add_comm (a ^ 2) (b ^ 2)]
  exact normalize_rescale b a c (by linarith) hc

/-- Closed form of an active `move_player` call on a non-zero axis with
non-zero `max_speed * dt`: the translation grows by the normalized axis scaled
by `abs (max_speed * dt)`, and the rotation becomes the angle between
`Vec2::X` and the normalized axis. -/
lemma move_player_active_eq (p : Player) (tf : Transform) (axis : Vec2) (dt : ℝ)
    (hax : axis ≠ Vec2.zero) (hc : p.max_speed * dt ≠ 0) :
    move_player p tf true axis dt =
      ⟨tf.translation.add ((axis.normalize.smul |p.max_speed * dt|).extend 0),
        Vec2.angle_between Vec2.X axis.normalize⟩ := by
  have hab : 0 < axis.x ^ 2 + axis.y ^ 2 := Vec2.sq_add_sq_pos axis hax
  have hL : Real.sqrt ((axis.x * (p.max_speed * dt)) ^ 2 + (axis.y * (p.max_speed * dt)) ^ 2)
      = |p.max_speed * dt| * Real.sqrt (axis.x ^ 2 + axis.y ^ 2) := sqrt_smul_sq _ _ _
  have hLpos : Real.sqrt ((axis.x * (p.max_speed * dt)) ^ 2
      + (axis.y * (p.max_speed * dt)) ^ 2) > 0 := by
    rw [hL]
    exact mul_pos (abs_pos.mpr hc) (Real.sqrt_pos.mpr hab)
  simp only [move_player, Vec2.smul, Vec2.normalize, Vec2.length, Vec2.extend, Vec3.add,
    if_pos hLpos, if_pos hax, if_true]
  rw [normalize_rescale axis.x axis.y (p.max_speed * dt) hab hc,
    normalize_rescale_y axis.x axis.y (p.max_speed * dt) hab hc]

/-- Translation component of `move_player_active_eq`. -/
lemma move_player_translation_active (p : Player) (tf : Transform) (axis : Vec2) (dt : ℝ)
    (hax : axis ≠ Vec2.zero) (hc : p.max_speed * dt ≠ 0) :
    (move_player p tf true axis dt).translation =
      tf.translation.add ((axis.normalize.smul |p.max_speed * dt|).extend 0) := by
  rw [move_player_active_eq p tf axis dt hax hc]

/-- C1: for every non-zero axis and every positive `dt` (and the positive
`max_speed` of the spec's contract), the active call displaces the position by
a vector of magnitude exactly `max_speed * dt`, whatever the magnitude of the
axis: normalization discards the axis magnitude and keeps only its direction. -/
theorem move_player_displacement_magnitude (p : Player) (tf : Transform) (axis : Vec2)
    (dt : ℝ) (hax : axis ≠ Vec2.zero) (hdt : 0 < dt) (hs : 0 < p.max_speed) :
    Real.sqrt (((move_player p tf true axis dt).translation.x - tf.translation.x) ^ 2
        + ((move_player p tf true axis dt).translation.y - tf.translation.y) ^ 2)
      = p.max_speed * dt := by
  have hcpos : 0 < p.max_speed * dt := mul_pos hs hdt
  have hab : 0 < axis.x ^ 2 + axis.y ^ 2 := Vec2.sq_add_sq_pos axis hax
  rw [move_player_translation_active p tf axis dt hax hcpos.ne']
  simp only [Vec3.add, Vec2.smul, Vec2.extend, Vec2.normalize, Vec2.length,
    add_sub_cancel_left]
  rw [sqrt_smul_sq, sqrt_normalized axis.x axis.y hab, mul_one, abs_abs, abs_of_pos hcpos]

/-- Witness for C1 at Scenario B of the spec: a tiny axis push `(0.01, 0)`
with `max_speed = 150` and `dt = 0.1` still moves the player by 15 units. -/
theorem move_player_displacement_magnitude_witness :
    (⟨1 / 100, 0⟩ : Vec2) ≠ Vec2.zero ∧ (0 : ℝ) < 1 / 10 ∧
      (0 : ℝ) < (Player.mk 150).max_speed ∧
      Real.sqrt (((move_player ⟨150⟩ tf0 true ⟨1 / 100, 0⟩ (1 / 10)).translation.x
            - tf0.translation.x) ^ 2
          + ((move_player ⟨150⟩ tf0 true ⟨1 / 100, 0⟩ (1 / 10)).translation.y
            - tf0.translation.y) ^ 2)
        = (Player.mk 150).max_speed * (1 / 10) := by
  have hax : (⟨1 / 100, 0⟩ : Vec2) ≠ Vec2.zero := by
    intro h
    have h1 : (1 : ℝ) / 100 = 0 := congrArg Vec2.x h
    norm_num at h1
  exact ⟨hax, by norm_num, by norm_num,
    move_player_displacement_magnitude ⟨150⟩ tf0 ⟨1 / 100, 0⟩ (1 / 10) hax
      (by norm_num) (by norm_num)⟩

/-- Counterexample to C4: the code does not sanitize a negative `dt`. With
`max_speed = 150`, axis `(1, 0)`, `dt = -1` and `active = true`, the position
changes (by `+150` in x, through the double sign cancellation), instead of
staying unchanged as the claim demands. -/
theorem move_player_negative_dt_counterexample :
    (move_player ⟨150⟩ tf0 true ⟨1, 0⟩ (-1)).translation ≠ tf0.translation := by
  have hax : (⟨1, 0⟩ : Vec2) ≠ Vec2.zero := by
    intro h
    have h1 : (1 : ℝ) = 0 := congrArg Vec2.x h
    norm_num at h1
  have hc : (Player.mk 150).max_speed * (-1) ≠ 0 := by norm_num
  intro h
  rw [move_player_translation_active ⟨150⟩ tf0 ⟨1, 0⟩ (-1) hax hc] at h
  have habs : |(Player.mk 150).max_speed * (-1)| = 150 := by
    rw [abs_of_neg (by norm_num)]
    norm_num
  rw [habs] at h
  have hx : (0 : ℝ) + 1 / Real.sqrt (1 ^ 2 + 0 ^ 2) * 150 = 0 := congrArg Vec3.x h
  norm_num [Real.sqrt_one] at hx

/-- C4 amended: `move_player` does not sanitize a negative `dt`. For every
non-zero axis, every `dt < 0` and a positive `max_speed`, the active call
moves the position: it adds the normalized axis scaled by
`max_speed * (-dt)` (the two factors of the negative `dt` cancel in sign), so
the resulting position differs from the previous one. -/
theorem move_player_negative_dt_moves (p : Player) (tf : Transform) (axis : Vec2) (dt : ℝ)
    (hax : axis ≠ Vec2.zero) (hdt : dt < 0) (hs : 0 < p.max_speed) :
    (move_player p tf true axis dt).translation =
        tf.translation.add ((axis.normalize.smul (p.max_speed * -dt)).extend 0) ∧
      (move_player p tf true axis dt).translation ≠ tf.translation := by
  have hcneg : p.max_speed * dt < 0 := mul_neg_of_pos_of_neg hs hdt
  have habs : |p.max_speed * dt| = p.max_speed * -dt := by
    rw [abs_of_neg hcneg]
    ring
  have htr := move_player_translation_active p tf axis dt hax hcneg.ne
  rw [habs] at htr
  refine ⟨htr, ?_⟩
  rw [htr]
  intro hEq
  have hm : 0 < p.max_speed * -dt := by nlinarith
  have hL0 : 0 < Real.sqrt (axis.x ^ 2 + axis.y ^ 2) :=
    Real.sqrt_pos.mpr (Vec2.sq_add_sq_pos axis hax)
  have hx : tf.translation.x
      + axis.x / Real.sqrt (axis.x ^ 2 + axis.y ^ 2) * (p.max_speed * -dt)
      = tf.translation.x := congrArg Vec3.x hEq
  have hy : tf.translation.y
      + axis.y / Real.sqrt (axis.x ^ 2 + axis.y ^ 2) * (p.max_speed * -dt)
      = tf.translation.y := congrArg Vec3.y hEq
  have hx0 : axis.x / Real.sqrt (axis.x ^ 2 + axis.y ^ 2) * (p.max_speed * -dt) = 0 := by
    linarith
  have hy0 : axis.y / Real.sqrt (axis.x ^ 2 + axis.y ^ 2) * (p.max_speed * -dt) = 0 := by
    linarith
  have hax0 : axis.x = 0 :=
    (div_eq_zero_iff.mp ((mul_eq_zero.mp hx0).resolve_right hm.ne')).resolve_right hL0.ne'
  have hay0 : axis.y = 0 :=
    (div_eq_zero_iff.mp ((mul_eq_zero.mp hy0).resolve_right hm.ne')).resolve_right hL0.ne'
  exact hax (Vec2.ext hax0 hay0)

/-- Witness for the amended C4 at `max_speed = 150`, axis `(1, 0)`, `dt = -1`. -/
theorem move_player_negative_dt_moves_witness :
    (⟨1, 0⟩ : Vec2) ≠ Vec2.zero ∧ (-1 : ℝ) < 0 ∧ (0 : ℝ) < (Player.mk 150).max_speed ∧
      ((move_player ⟨150⟩ tf0 true ⟨1, 0⟩ (-1)).translation =
          tf0.translation.add
            (((Vec2.normalize ⟨1, 0⟩).smul ((Player.mk 150).max_speed * -(-1))).extend 0) ∧
        (move_player ⟨150⟩ tf0 true ⟨1, 0⟩ (-1)).translation ≠ tf0.translation) := by
  have hax : (⟨1, 0⟩ : Vec2) ≠ Vec2.zero := by
    intro h
    have h1 : (1 : ℝ) = 0 := congrArg Vec2.x h
    norm_num at h1
  exact ⟨hax, by norm_num, by norm_num,
    move_player_negative_dt_moves ⟨150⟩ tf0 ⟨1, 0⟩ (-1) hax (by norm_num) (by norm_num)⟩

/-- Rotation component of an active call on a non-zero axis: the angle between
`Vec2::X` and the normalized axis (independent of `max_speed` and `dt`). -/
lemma move_player_rotation_active (p : Player) (tf : Transform) (axis : Vec2) (dt : ℝ)
    (hax : axis ≠ Vec2.zero) :
    (move_player p tf true axis dt).rotation = Vec2.angle_between Vec2.X axis.normalize := by
  simp [move_player, hax, apply_ite Transform.rotation]

/-- The squared components of a normalized non-zero vector sum to one. -/
lemma normalized_sq_sum (a b : ℝ) (hab : 0 < a ^ 2 + b ^ 2) :
    (a / Real.sqrt (a ^ 2 + b ^ 2)) ^ 2 + (b / Real.sqrt (a ^ 2 + b ^ 2)) ^ 2 = 1 := by
  rw [div_pow, div_pow, Real.sq_sqrt hab.le]
  field_simp

/-- The normalized components of a non-zero `Vec2`, read as a complex number,
have absolute value one. -/
lemma normalize_abs (axis : Vec2) (hax : axis ≠ Vec2.zero) :
    Complex.abs ⟨axis.normalize.x, axis.normalize.y⟩ = 1 := by
  have hab := Vec2.sq_add_sq_pos axis hax
  rw [Complex.abs_apply, Complex.normSq_mk]
  simp only [Vec2.normalize, Vec2.length]
  rw [show axis.x / Real.sqrt (axis.x ^ 2 + axis.y ^ 2)
        * (axis.x / Real.sqrt (axis.x ^ 2 + axis.y ^ 2))
        + axis.y / Real.sqrt (axis.x ^ 2 + axis.y ^ 2)
          * (axis.y / Real.sqrt (axis.x ^ 2 + axis.y ^ 2))
      = (axis.x / Real.sqrt (axis.x ^ 2 + axis.y ^ 2)) ^ 2
        + (axis.y / Real.sqrt (axis.x ^ 2 + axis.y ^ 2)) ^ 2 from by ring,
    normalized_sq_sum axis.x axis.y hab, Real.sqrt_one]

/-- Against the reference direction `Vec2::X`, `angle_between` is the complex
argument (atan2) of the target vector itself. -/
lemma angle_between_X (b : Vec2) :
    Vec2.angle_between Vec2.X b = Complex.arg ⟨b.x, b.y⟩ := by
  simp [Vec2.angle_between, Vec2.X]

/-- C5: an active call on a non-zero axis sets the rotation to the
counter-clockwise angle from `(1, 0)` to the normalized axis: its cosine and
sine are the normalized axis components and it lies in the atan2 range
`(-pi, pi]`; in particular axis `(1, 0)` yields rotation `0` and axis `(0, 1)`
yields rotation `pi / 2`. -/
theorem move_player_rotation_matches_direction (p : Player) (tf : Transform) (axis : Vec2)
    (dt : ℝ) (hax : axis ≠ Vec2.zero) :
    Real.cos ((move_player p tf true axis dt).rotation) = axis.normalize.x ∧
      Real.sin ((move_player p tf true axis dt).rotation) = axis.normalize.y ∧
      (move_player p tf true axis dt).rotation ∈ Set.Ioc (-π) π ∧
      (move_player p tf true ⟨1, 0⟩ dt).rotation = 0 ∧
      (move_player p tf true ⟨0, 1⟩ dt).rotation = π / 2 := by
  have habs := normalize_abs axis hax
  have hz : (⟨axis.normalize.x, axis.normalize.y⟩ : ℂ) ≠ 0 := by
    intro h0
    rw [h0] at habs
    simp at habs
  rw [move_player_rotation_active p tf axis dt hax, angle_between_X]
  refine ⟨?_, ?_, Complex.arg_mem_Ioc _, ?_, ?_⟩
  · rw [Complex.cos_arg hz, habs, div_one]
  · rw [Complex.sin_arg, habs, div_one]
  · have hax1 : (⟨1, 0⟩ : Vec2) ≠ Vec2.zero := by
      intro h
      have h1 : (1 : ℝ) = 0 := congrArg Vec2.x h
      norm_num at h1
    rw [move_player_rotation_active p tf ⟨1, 0⟩ dt hax1, angle_between_X]
    have hn : Vec2.normalize ⟨1, 0⟩ = ⟨1, 0⟩ := by
      simp [Vec2.normalize, Vec2.length, Vec2.mk.injEq]
    rw [hn]
    have h1 : (⟨(1 : ℝ), (0 : ℝ)⟩ : ℂ) = 1 := by
      apply Complex.ext <;> simp
    rw [h1, Complex.arg_one]
  · have hax2 : (⟨0, 1⟩ : Vec2) ≠ Vec2.zero := by
      intro h
      have h1 : (1 : ℝ) = 0 := congrArg Vec2.y h
      norm_num at h1
    rw [move_player_rotation_active p tf ⟨0, 1⟩ dt hax2, angle_between_X]
    have hn : Vec2.normalize ⟨0, 1⟩ = ⟨0, 1⟩ := by
      simp [Vec2.normalize, Vec2.length, Vec2.mk.injEq]
    rw [hn]
    have h1 : (⟨(0 : ℝ), (1 : ℝ)⟩ : ℂ) = Complex.I := by
      apply Complex.ext <;> simp
    rw [h1, Complex.arg_I]

/-- Witness for C5 at `max_speed = 150`, `dt = 1`, axis `(3, 4)`. -/
theorem move_player_rotation_matches_direction_witness :
    (⟨3, 4⟩ : Vec2) ≠ Vec2.zero ∧
      (Real.cos ((move_player ⟨150⟩ tf0 true ⟨3, 4⟩ 1).rotation)
          = (Vec2.normalize ⟨3, 4⟩).x ∧
        Real.sin ((move_player ⟨150⟩ tf0 true ⟨3, 4⟩ 1).rotation)
          = (Vec2.normalize ⟨3, 4⟩).y ∧
        (move_player ⟨150⟩ tf0 true ⟨3, 4⟩ 1).rotation ∈ Set.Ioc (-π) π ∧
        (move_player ⟨150⟩ tf0 true ⟨1, 0⟩ 1).rotation = 0 ∧
        (move_player ⟨150⟩ tf0 true ⟨0, 1⟩ 1).rotation = π / 2) := by
  have hax : (⟨3, 4⟩ : Vec2) ≠ Vec2.zero := by
    intro h
    have h1 : (3 : ℝ) = 0 := congrArg Vec2.x h
    norm_num at h1
  exact ⟨hax, move_player_rotation_matches_direction ⟨150⟩ tf0 ⟨3, 4⟩ 1 hax⟩

/-- A call whose input is not pressed, or whose axis is the zero vector, keeps
the previous rotation value. -/
lemma move_player_rotation_unchanged (p : Player) (tf : Transform) (pressed : Bool)
    (axis : Vec2) (dt : ℝ) (h : pressed = false ∨ axis = Vec2.zero) :
    (move_player p tf pressed axis dt).rotation = tf.rotation := by
  rcases h with h | h
  · subst h
    rfl
  · cases pressed with
    | false => rfl
    | true =>
        subst h
        simp [move_player, apply_ite Transform.rotation]

/-- C8: rotation is only ever assigned by an active call with a non-zero
axis: a single inactive-or-zero-axis call keeps the previous rotation, and a
whole sequence of such calls keeps the rotation of the state it started
from. -/
theorem rotation_assigned_only_by_active_nonzero (p : Player) :
    (∀ (tf : Transform) (i : InputReading) (dt : ℝ),
        i.pressed = false ∨ i.axis = Vec2.zero →
          (step p tf i dt).rotation = tf.rotation) ∧
      (∀ (tf : Transform) (frames : List (InputReading × ℝ)),
        (∀ f ∈ frames, f.1.pressed = false ∨ f.1.axis = Vec2.zero) →
          (run_moves p tf frames).rotation = tf.rotation) := by
  constructor
  · intro tf i dt h
    exact move_player_rotation_unchanged p tf i.pressed i.axis dt h
  · intro tf frames
    induction frames generalizing tf with
    | nil => intro _; rfl
    | cons f fs ih =>
        intro h
        have h1 := h f (List.mem_cons_self f fs)
        have h2 : ∀ g ∈ fs, g.1.pressed = false ∨ g.1.axis = Vec2.zero :=
          fun g hg => h g (List.mem_cons_of_mem f hg)
        calc (run_moves p tf (f :: fs)).rotation
            = (run_moves p (step p tf f.1 f.2) fs).rotation := rfl
          _ = (step p tf f.1 f.2).rotation := ih (step p tf f.1 f.2) h2
          _ = tf.rotation :=
              move_player_rotation_unchanged p tf f.1.pressed f.1.axis f.2 h1

/-- Witness for C8: one unpressed frame and then one pressed zero-axis frame
keep the rotation of the start state. -/
theorem rotation_assigned_only_by_active_nonzero_witness :
    (step ⟨150⟩ tf0 ⟨⟨1, 1⟩, false⟩ 1).rotation = tf0.rotation ∧
      (run_moves ⟨150⟩ tf0 [(⟨⟨1, 1⟩, false⟩, 1), (⟨Vec2.zero, true⟩, 1)]).rotation
        = tf0.rotation := by
  constructor
  · exact (rotation_assigned_only_by_active_nonzero ⟨150⟩).1 tf0 ⟨⟨1, 1⟩, false⟩ 1
      (Or.inl rfl)
  · refine (rotation_assigned_only_by_active_nonzero ⟨150⟩).2 tf0 _ ?_
    intro f hf
    rcases List.mem_cons.mp hf with h | h
    · subst h
      exact Or.inl rfl
    · rw [List.mem_singleton.mp h]
      exact Or.inr rfl
